import Mathlib

/-!
# Verification of the face-registration web app logic (`src/app.js`)

Shallow embedding of the UI-orchestration logic of `app.js`:
the localStorage-backed identity store (`saveDB` / `loadDB`), the face-matcher
rebuild (`makeFaceMatcherFromStorage`), registration (`registerLabeledFaces`),
the clear/import/export handlers, the per-frame detection option computation,
and the expression-selection step of the render loop.

JavaScript strings are modelled as `List Char`; the browser's `JSON.stringify`
and `JSON.parse` are modelled by an executable printer and recursive-descent
parser over a JSON value type (numbers modelled as integers — the descriptor
payload is opaque to all of the app's logic, no arithmetic is ever performed on
it).  `localStorage` is modelled as a key-to-value map.  External collaborators
(face detection, the `FaceMatcher` object's matching math, the camera, the DOM)
are out of scope per the spec and appear only as opaque parameters or as the
data the app passes to them.
-/

/-! ## Characters and decimal digits -/

/-- Decimal digit test (`'0'` through `'9'`). -/
def isDig (c : Char) : Bool := 48 ≤ c.toNat && c.toNat ≤ 57

/-- The decimal digit character for values below ten. -/
def digitChar : Nat → Char
  | 0 => '0' | 1 => '1' | 2 => '2' | 3 => '3' | 4 => '4'
  | 5 => '5' | 6 => '6' | 7 => '7' | 8 => '8' | _ => '9'

/-- Numeric value of a digit character. -/
def digVal (c : Char) : Nat := c.toNat - 48

theorem isDig_digitChar (d : Nat) (hd : d < 10) : isDig (digitChar d) = true := by
  interval_cases d <;> decide

theorem digVal_digitChar (d : Nat) (hd : d < 10) : digVal (digitChar d) = d := by
  interval_cases d <;> decide

/-! ## Decimal printing of naturals and integers (the number fragment of
`JSON.stringify`) -/

/-- Fuel-driven digit emission: digits of `n`, most significant first
(empty for `n = 0`).  The fuel only needs to dominate `n` itself; structural
recursion on the fuel keeps the definition kernel-reducible. -/
def natDigitsCore : Nat → Nat → List Char
  | 0, _ => []
  | fuel + 1, n => if n = 0 then [] else natDigitsCore fuel (n / 10) ++ [digitChar (n % 10)]

/-- Decimal digits of a natural number (`"0"` for zero). -/
def natDigits (n : Nat) : List Char := if n = 0 then ['0'] else natDigitsCore (n + 1) n

/-- Decimal rendering of an integer, as `JSON.stringify` renders integral
numbers. -/
def printInt (n : Int) : List Char :=
  if n < 0 then '-' :: natDigits n.natAbs else natDigits n.natAbs

/-- Greedy digit consumption with an accumulator (the number fragment of
`JSON.parse`). -/
def parseDigitsAux : List Char → Nat → Nat × List Char
  | [], acc => (acc, [])
  | c :: rest, acc =>
    if isDig c then parseDigitsAux rest (acc * 10 + digVal c) else (acc, c :: rest)

/-- Parse a nonempty run of decimal digits. -/
def parseNat : List Char → Option (Nat × List Char)
  | [] => none
  | c :: rest => if isDig c then some (parseDigitsAux rest (digVal c)) else none

/-- Input does not begin with a decimal digit (so a preceding number literal is
parsed greedily but completely). -/
def noLeadDigit : List Char → Bool
  | [] => true
  | c :: _ => !(isDig c)

theorem natDigitsCore_mem_isDig (fuel n : Nat) :
    ∀ c ∈ natDigitsCore fuel n, isDig c = true := by
  induction fuel generalizing n with
  | zero => intro c hc; simp [natDigitsCore] at hc
  | succ fuel ih =>
    intro c hc
    by_cases hn : n = 0
    · simp [natDigitsCore, hn] at hc
    · simp only [natDigitsCore, hn, if_false, List.mem_append, List.mem_singleton] at hc
      rcases hc with hc | rfl
      · exact ih (n / 10) c hc
      · exact isDig_digitChar _ (Nat.mod_lt _ (by omega))

theorem natDigits_mem_isDig (n : Nat) : ∀ c ∈ natDigits n, isDig c = true := by
  intro c hc
  by_cases hn : n = 0
  · simp [natDigits, hn] at hc; subst hc; decide
  · simp only [natDigits, hn, if_false] at hc
    exact natDigitsCore_mem_isDig _ _ c hc

theorem natDigits_ne_nil (n : Nat) : natDigits n ≠ [] := by
  by_cases hn : n = 0
  · simp [natDigits, hn]
  · rcases Nat.exists_eq_succ_of_ne_zero (n := n) hn with ⟨m, rfl⟩
    simp [natDigits, natDigitsCore]

/-- Folding the digit-accumulation step over a digit string. -/
def digitsFold (acc : Nat) (cs : List Char) : Nat :=
  cs.foldl (fun a c => a * 10 + digVal c) acc

theorem digitsFold_append (acc : Nat) (xs ys : List Char) :
    digitsFold acc (xs ++ ys) = digitsFold (digitsFold acc xs) ys := by
  simp [digitsFold]

theorem natDigitsCore_succ (fuel n : Nat) (hn : n ≠ 0) :
    natDigitsCore (fuel + 1) n = natDigitsCore fuel (n / 10) ++ [digitChar (n % 10)] := by
  rw [natDigitsCore]; simp [hn]

theorem digitsFold_natDigitsCore (n : Nat) :
    ∀ fuel, n ≤ fuel → ∀ acc,
      digitsFold acc (natDigitsCore (fuel + 1) n) =
        acc * 10 ^ (natDigitsCore (fuel + 1) n).length + n := by
  induction n using Nat.strong_induction_on with
  | _ n ih =>
    intro fuel hfuel acc
    by_cases hn : n = 0
    · simp [natDigitsCore, hn, digitsFold]
    · rcases Nat.exists_eq_succ_of_ne_zero (n := fuel) (by omega) with ⟨f, rfl⟩
      have hdiv : n / 10 < n := Nat.div_lt_self (Nat.pos_of_ne_zero hn) (by omega)
      have hdivf : n / 10 ≤ f := by omega
      rw [natDigitsCore_succ (f + 1) n hn]
      rw [digitsFold_append, ih (n / 10) hdiv f hdivf acc]
      have hd : digVal (digitChar (n % 10)) = n % 10 :=
        digVal_digitChar _ (Nat.mod_lt _ (by omega))
      simp only [digitsFold, List.foldl_cons, List.foldl_nil, List.length_append,
        List.length_cons, List.length_nil, Nat.zero_add, hd]
      have hdm : n / 10 * 10 + n % 10 = n := by omega
      calc (acc * 10 ^ (natDigitsCore (f + 1) (n / 10)).length + n / 10) * 10 + n % 10
          = acc * (10 ^ (natDigitsCore (f + 1) (n / 10)).length * 10)
              + (n / 10 * 10 + n % 10) := by ring
        _ = acc * 10 ^ ((natDigitsCore (f + 1) (n / 10)).length + 1) + n := by
            rw [hdm, pow_succ]

theorem digitsFold_natDigits (n : Nat) (acc : Nat) :
    digitsFold acc (natDigits n) = acc * 10 ^ (natDigits n).length + n := by
  by_cases hn : n = 0
  · simp [natDigits, hn, digitsFold, digVal]
  · simp only [natDigits, hn, if_false]
    exact digitsFold_natDigitsCore n n (le_refl n) acc

theorem parseDigitsAux_append (xs : List Char) (hxs : ∀ c ∈ xs, isDig c = true) :
    ∀ acc rest, parseDigitsAux (xs ++ rest) acc = parseDigitsAux rest (digitsFold acc xs) := by
  induction xs with
  | nil => intro acc rest; simp [digitsFold]
  | cons x xs ih =>
    intro acc rest
    have hx : isDig x = true := hxs x (by simp)
    simp only [List.cons_append, parseDigitsAux, hx, if_true, List.append_eq]
    rw [ih (fun c hc => hxs c (by simp [hc]))]
    simp [digitsFold]

theorem parseDigitsAux_stop (rest : List Char) (h : noLeadDigit rest = true) (acc : Nat) :
    parseDigitsAux rest acc = (acc, rest) := by
  cases rest with
  | nil => simp [parseDigitsAux]
  | cons c t =>
    simp only [noLeadDigit, Bool.not_eq_true'] at h
    simp [parseDigitsAux, h]

/-- Parsing the printed digits of `n` (followed by non-digit input) recovers
`n` exactly. -/
theorem parseNat_natDigits (n : Nat) (rest : List Char) (h : noLeadDigit rest = true) :
    parseNat (natDigits n ++ rest) = some (n, rest) := by
  rcases hcons : natDigits n with _ | ⟨c, cs⟩
  · exact absurd hcons (natDigits_ne_nil n)
  · have hc : isDig c = true := by
      apply natDigits_mem_isDig n
      rw [hcons]; simp
    have hcs : ∀ x ∈ cs, isDig x = true := by
      intro x hx
      apply natDigits_mem_isDig n
      rw [hcons]; simp [hx]
    simp only [List.cons_append, parseNat, hc, if_true]
    rw [parseDigitsAux_append cs hcs (digVal c) rest, parseDigitsAux_stop rest h]
    have hfold : digitsFold 0 (natDigits n) = n := by
      rw [digitsFold_natDigits]; ring
    rw [hcons] at hfold
    have : digitsFold 0 (c :: cs) = digitsFold (digVal c) cs := by
      simp [digitsFold]
    rw [this] at hfold
    rw [hfold]

/-! ## JSON values

Mutual inductive presentation (arrays and objects carry their own list types)
so that structural mutual recursion and induction stay straightforward.
Numbers are modelled as integers: the app performs no arithmetic on the
descriptor payload, so the numeric carrier is opaque to all verified logic. -/

mutual
inductive Json where
  | null : Json
  | bool (b : Bool) : Json
  | num (n : Int) : Json
  | str (s : List Char) : Json
  | arr (elems : JsonArr) : Json
  | obj (fields : JsonObj) : Json
deriving DecidableEq
inductive JsonArr where
  | nil : JsonArr
  | cons (hd : Json) (tl : JsonArr) : JsonArr
deriving DecidableEq
inductive JsonObj where
  | nil : JsonObj
  | cons (key : List Char) (val : Json) (tl : JsonObj) : JsonObj
deriving DecidableEq
end

/-- String-body escaping: `JSON.stringify` escapes the two characters that
would end or escape the literal (the printer never emits raw control
characters because the app's labels pass through unchanged). -/
def escStr : List Char → List Char
  | [] => []
  | c :: rest => (if c = '"' ∨ c = '\\' then ['\\', c] else [c]) ++ escStr rest

/-- A printed JSON string literal. -/
def printStr (s : List Char) : List Char := '"' :: escStr s ++ ['"']

mutual
/-- Model of `JSON.stringify` (compact form, no whitespace — exactly what the
browser emits for the store object). -/
def printJson : Json → List Char
  | Json.null => ['n', 'u', 'l', 'l']
  | Json.bool true => ['t', 'r', 'u', 'e']
  | Json.bool false => ['f', 'a', 'l', 's', 'e']
  | Json.num n => printInt n
  | Json.str s => printStr s
  | Json.arr es => '[' :: printArr es ++ [']']
  | Json.obj fs => '{' :: printObj fs ++ ['}']
/-- Comma-separated printed array elements. -/
def printArr : JsonArr → List Char
  | JsonArr.nil => []
  | JsonArr.cons h JsonArr.nil => printJson h
  | JsonArr.cons h (JsonArr.cons h2 t) => printJson h ++ ',' :: printArr (JsonArr.cons h2 t)
/-- Comma-separated printed object fields. -/
def printObj : JsonObj → List Char
  | JsonObj.nil => []
  | JsonObj.cons k v JsonObj.nil => printStr k ++ ':' :: printJson v
  | JsonObj.cons k v (JsonObj.cons k2 v2 t) =>
      printStr k ++ ':' :: printJson v ++ ',' :: printObj (JsonObj.cons k2 v2 t)
end

/-- Parse the body of a string literal after its opening quote; a backslash
takes the following character verbatim. -/
def parseStrBody : List Char → Option (List Char × List Char)
  | [] => none
  | c :: rest =>
    if c = '"' then some ([], rest)
    else if c = '\\' then
      match rest with
      | [] => none
      | c2 :: r2 => (parseStrBody r2).map (fun p => (c2 :: p.1, p.2))
    else (parseStrBody rest).map (fun p => (c :: p.1, p.2))

/-- Match a literal character sequence. -/
def expectLit : List Char → List Char → Option (List Char)
  | [], cs => some cs
  | _ :: _, [] => none
  | l :: ls, c :: cs => if c = l then expectLit ls cs else none

mutual
/-- Model of `JSON.parse`, fuel-driven recursive descent.  Returns the parsed
value and the unconsumed input; `none` models a thrown `SyntaxError`. -/
def parseJson : Nat → List Char → Option (Json × List Char)
  | 0, _ => none
  | _ + 1, [] => none
  | fuel + 1, c :: rest =>
    if c = 'n' then (expectLit ['u', 'l', 'l'] rest).map (fun r => (Json.null, r))
    else if c = 't' then (expectLit ['r', 'u', 'e'] rest).map (fun r => (Json.bool true, r))
    else if c = 'f' then (expectLit ['a', 'l', 's', 'e'] rest).map (fun r => (Json.bool false, r))
    else if c = '"' then (parseStrBody rest).map (fun p => (Json.str p.1, p.2))
    else if c = '[' then
      match rest with
      | [] => none
      | c2 :: r2 =>
        if c2 = ']' then some (Json.arr JsonArr.nil, r2)
        else (parseArrItems fuel (c2 :: r2)).map (fun p => (Json.arr p.1, p.2))
    else if c = '{' then
      match rest with
      | [] => none
      | c2 :: r2 =>
        if c2 = '}' then some (Json.obj JsonObj.nil, r2)
        else (parseObjItems fuel (c2 :: r2)).map (fun p => (Json.obj p.1, p.2))
    else if c = '-' then
      match parseNat rest with
      | some (n, r2) => some (Json.num (-(n : Int)), r2)
      | none => none
    else if isDig c then
      match parseNat (c :: rest) with
      | some (n, r2) => some (Json.num (n : Int), r2)
      | none => none
    else none
/-- Parse one or more comma-separated array elements up to the closing
bracket. -/
def parseArrItems : Nat → List Char → Option (JsonArr × List Char)
  | 0, _ => none
  | fuel + 1, cs =>
    match parseJson fuel cs with
    | none => none
    | some (v, r1) =>
      match r1 with
      | [] => none
      | c :: r2 =>
        if c = ',' then (parseArrItems fuel r2).map (fun p => (JsonArr.cons v p.1, p.2))
        else if c = ']' then some (JsonArr.cons v JsonArr.nil, r2)
        else none
/-- Parse one or more comma-separated object fields up to the closing
brace. -/
def parseObjItems : Nat → List Char → Option (JsonObj × List Char)
  | 0, _ => none
  | fuel + 1, cs =>
    match cs with
    | [] => none
    | c :: r0 =>
      if c = '"' then
        match parseStrBody r0 with
        | none => none
        | some (k, r1) =>
          match r1 with
          | [] => none
          | c1 :: r2 =>
            if c1 = ':' then
              match parseJson fuel r2 with
              | none => none
              | some (v, r3) =>
                match r3 with
                | [] => none
                | c2 :: r4 =>
                  if c2 = ',' then
                    (parseObjItems fuel r4).map (fun p => (JsonObj.cons k v p.1, p.2))
                  else if c2 = '}' then some (JsonObj.cons k v JsonObj.nil, r4)
                  else none
            else none
      else none
end

/-- Model of a full `JSON.parse` call: the whole input must be consumed. -/
def parseJsonTop (s : List Char) : Option Json :=
  match parseJson (s.length + 1) s with
  | some (j, []) => some j
  | _ => none

/-! ## Printer–parser round trip -/

mutual
/-- Structural size of a JSON value, a lower bound for the parser fuel. -/
def sizeJ : Json → Nat
  | Json.null => 1 | Json.bool _ => 1 | Json.num _ => 1 | Json.str _ => 1
  | Json.arr es => sizeA es + 1
  | Json.obj fs => sizeO fs + 1
/-- Structural size of an array tail. -/
def sizeA : JsonArr → Nat
  | JsonArr.nil => 0
  | JsonArr.cons h t => sizeJ h + sizeA t + 1
/-- Structural size of an object tail. -/
def sizeO : JsonObj → Nat
  | JsonObj.nil => 0
  | JsonObj.cons _ v t => sizeJ v + sizeO t + 1
end

theorem sizeJ_pos (j : Json) : 1 ≤ sizeJ j := by
  cases j <;> simp [sizeJ]

theorem expectLit_append (lit rest : List Char) : expectLit lit (lit ++ rest) = some rest := by
  induction lit with
  | nil => simp [expectLit]
  | cons l ls ih => simp [expectLit, ih]

theorem parseStrBody_cons (c : Char) (rest : List Char) :
    parseStrBody (c :: rest) =
      if c = '"' then some ([], rest)
      else if c = '\\' then
        (match rest with
         | [] => none
         | c2 :: r2 => (parseStrBody r2).map (fun p => (c2 :: p.1, p.2)))
      else (parseStrBody rest).map (fun p => (c :: p.1, p.2)) := by
  rw [parseStrBody.eq_def]

theorem parseStrBody_escStr (s : List Char) :
    ∀ rest, parseStrBody (escStr s ++ '"' :: rest) = some (s, rest) := by
  induction s with
  | nil =>
    intro rest
    have : escStr [] ++ '"' :: rest = '"' :: rest := by simp [escStr]
    rw [this, parseStrBody_cons]
    simp
  | cons c cs ih =>
    intro rest
    by_cases hc : c = '"' ∨ c = '\\'
    · have hform : escStr (c :: cs) ++ '"' :: rest =
          '\\' :: c :: (escStr cs ++ '"' :: rest) := by
        simp [escStr, hc]
      rw [hform, parseStrBody_cons]
      simp [ih]
    · push_neg at hc
      have hform : escStr (c :: cs) ++ '"' :: rest = c :: (escStr cs ++ '"' :: rest) := by
        simp [escStr, hc]
      rw [hform, parseStrBody_cons]
      simp [hc.1, hc.2, ih]

theorem isDig_not_special (c : Char) (h : isDig c = true) :
    c ≠ 'n' ∧ c ≠ 't' ∧ c ≠ 'f' ∧ c ≠ '"' ∧ c ≠ '[' ∧ c ≠ '{' ∧ c ≠ '-' ∧ c ≠ ']' ∧ c ≠ '}' := by
  refine ⟨?_, ?_, ?_, ?_, ?_, ?_, ?_, ?_, ?_⟩ <;>
    (intro he; subst he; exact absurd h (by decide))

theorem printJson_head (j : Json) :
    ∃ c cs, printJson j = c :: cs ∧ c ≠ ']' ∧ c ≠ '}' := by
  cases j with
  | null => exact ⟨'n', ['u', 'l', 'l'], rfl, by decide, by decide⟩
  | bool b =>
    cases b
    · exact ⟨'f', ['a', 'l', 's', 'e'], rfl, by decide, by decide⟩
    · exact ⟨'t', ['r', 'u', 'e'], rfl, by decide, by decide⟩
  | num n =>
    by_cases hneg : n < 0
    · exact ⟨'-', natDigits n.natAbs, by simp [printJson, printInt, hneg], by decide, by decide⟩
    · rcases hd : natDigits n.natAbs with _ | ⟨c, cs⟩
      · exact absurd hd (natDigits_ne_nil _)
      · have hc : isDig c = true := natDigits_mem_isDig _ c (by rw [hd]; simp)
        obtain ⟨_, _, _, _, _, _, _, h8, h9⟩ := isDig_not_special c hc
        exact ⟨c, cs, by simp [printJson, printInt, hneg, hd], h8, h9⟩
  | str s => exact ⟨'"', escStr s ++ ['"'], by simp [printJson, printStr], by decide, by decide⟩
  | arr es => exact ⟨'[', printArr es ++ [']'], by simp [printJson], by decide, by decide⟩
  | obj fs => exact ⟨'{', printObj fs ++ ['}'], by simp [printJson], by decide, by decide⟩

theorem printArr_cons_ex (h : Json) (t : JsonArr) :
    ∃ d ds, printArr (JsonArr.cons h t) = d :: ds ∧ d ≠ ']' := by
  obtain ⟨c, cs, hpr, hn1, _⟩ := printJson_head h
  cases t with
  | nil => exact ⟨c, cs, by simp [printArr, hpr], hn1⟩
  | cons h2 t2 =>
    exact ⟨c, cs ++ ',' :: printArr (JsonArr.cons h2 t2), by simp [printArr, hpr], hn1⟩

theorem printObj_cons_ex (k : List Char) (v : Json) (t : JsonObj) :
    ∃ ds, printObj (JsonObj.cons k v t) = '"' :: ds := by
  cases t with
  | nil => exact ⟨escStr k ++ '"' :: ':' :: printJson v, by simp [printObj, printStr]⟩
  | cons k2 v2 t2 =>
    exact ⟨escStr k ++ '"' :: ':' :: (printJson v ++ ',' :: printObj (JsonObj.cons k2 v2 t2)),
      by simp [printObj, printStr]⟩

theorem parse_print (fuel : Nat) :
    (∀ j rest, sizeJ j ≤ fuel → noLeadDigit rest = true →
      parseJson fuel (printJson j ++ rest) = some (j, rest)) ∧
    (∀ h t rest, sizeA (JsonArr.cons h t) ≤ fuel →
      parseArrItems fuel (printArr (JsonArr.cons h t) ++ ']' :: rest) =
        some (JsonArr.cons h t, rest)) ∧
    (∀ k v fs rest, sizeO (JsonObj.cons k v fs) ≤ fuel →
      parseObjItems fuel (printObj (JsonObj.cons k v fs) ++ '}' :: rest) =
        some (JsonObj.cons k v fs, rest)) := by
  induction fuel with
  | zero =>
    refine ⟨fun j rest hs _ => absurd hs (by have := sizeJ_pos j; omega), ?_, ?_⟩
    · intro h t rest hs; simp [sizeA] at hs
    · intro k v fs rest hs; simp [sizeO] at hs
  | succ fuel ih =>
    obtain ⟨ihJ, ihA, ihO⟩ := ih
    refine ⟨?_, ?_, ?_⟩
    · intro j rest hsize hrest
      cases j with
      | null => simp [printJson, parseJson, expectLit]
      | bool b => cases b <;> simp [printJson, parseJson, expectLit]
      | num n =>
        by_cases hneg : n < 0
        · have hpr : printJson (Json.num n) ++ rest = '-' :: (natDigits n.natAbs ++ rest) := by
            simp [printJson, printInt, hneg]
          rw [hpr]
          have habs : -(|n|) = n := by rw [abs_of_neg hneg]; ring
          simp [parseJson, parseNat_natDigits _ _ hrest, Int.natCast_natAbs, habs]
        · rcases hd : natDigits n.natAbs with _ | ⟨c, cs⟩
          · exact absurd hd (natDigits_ne_nil _)
          have hcdig : isDig c = true := natDigits_mem_isDig _ c (by rw [hd]; simp)
          obtain ⟨h1, h2, h3, h4, h5, h6, h7, _, _⟩ := isDig_not_special c hcdig
          have hpr : printJson (Json.num n) ++ rest = c :: (cs ++ rest) := by
            simp [printJson, printInt, hneg, hd]
          have hback : c :: (cs ++ rest) = natDigits n.natAbs ++ rest := by
            rw [hd]; simp
          have habs : (|n|) = n := abs_of_nonneg (by omega)
          rw [hpr]
          simp [parseJson, h1, h2, h3, h4, h5, h6, h7, hcdig, hback,
            parseNat_natDigits _ _ hrest, Int.natCast_natAbs, habs]
      | str s =>
        have hpr : printJson (Json.str s) ++ rest = '"' :: (escStr s ++ '"' :: rest) := by
          simp [printJson, printStr]
        rw [hpr]
        simp [parseJson, parseStrBody_escStr]
      | arr es =>
        cases es with
        | nil =>
          have hpr : printJson (Json.arr JsonArr.nil) ++ rest = '[' :: ']' :: rest := by
            simp [printJson, printArr]
          rw [hpr]
          simp [parseJson]
        | cons h t =>
          obtain ⟨d, ds, hds, hdne⟩ := printArr_cons_ex h t
          have hpr : printJson (Json.arr (JsonArr.cons h t)) ++ rest =
              '[' :: (d :: (ds ++ ']' :: rest)) := by
            simp [printJson, hds]
          rw [hpr]
          have hsA : sizeA (JsonArr.cons h t) ≤ fuel := by
            simp [sizeJ] at hsize; omega
          have hback : d :: (ds ++ ']' :: rest) = printArr (JsonArr.cons h t) ++ ']' :: rest := by
            rw [hds]; simp
          simp [parseJson, hdne]
          rw [hback, ihA h t rest hsA]
      | obj fs =>
        cases fs with
        | nil =>
          have hpr : printJson (Json.obj JsonObj.nil) ++ rest = '{' :: '}' :: rest := by
            simp [printJson, printObj]
          rw [hpr]
          simp [parseJson]
        | cons k v t =>
          obtain ⟨ds, hds⟩ := printObj_cons_ex k v t
          have hpr : printJson (Json.obj (JsonObj.cons k v t)) ++ rest =
              '{' :: ('"' :: (ds ++ '}' :: rest)) := by
            simp [printJson, hds]
          rw [hpr]
          have hsO : sizeO (JsonObj.cons k v t) ≤ fuel := by
            simp [sizeJ] at hsize; omega
          have hback : '"' :: (ds ++ '}' :: rest) =
              printObj (JsonObj.cons k v t) ++ '}' :: rest := by
            rw [hds]; simp
          simp [parseJson]
          rw [hback, ihO k v t rest hsO]
    · intro h t rest hsize
      have hJ : sizeJ h ≤ fuel := by simp [sizeA] at hsize; omega
      cases t with
      | nil =>
        have hpr : printArr (JsonArr.cons h JsonArr.nil) ++ ']' :: rest =
            printJson h ++ ']' :: rest := by simp [printArr]
        rw [hpr]
        simp only [parseArrItems]
        rw [ihJ h (']' :: rest) hJ rfl]
        simp
      | cons h2 t2 =>
        have hpr : printArr (JsonArr.cons h (JsonArr.cons h2 t2)) ++ ']' :: rest =
            printJson h ++ ',' :: (printArr (JsonArr.cons h2 t2) ++ ']' :: rest) := by
          simp [printArr]
        rw [hpr]
        have hsA2 : sizeA (JsonArr.cons h2 t2) ≤ fuel := by
          simp [sizeA] at hsize ⊢; omega
        simp only [parseArrItems]
        rw [ihJ h (',' :: (printArr (JsonArr.cons h2 t2) ++ ']' :: rest)) hJ rfl]
        simp [ihA h2 t2 rest hsA2]
    · intro k v fs rest hsize
      have hJ : sizeJ v ≤ fuel := by simp [sizeO] at hsize; omega
      cases fs with
      | nil =>
        have hpr : printObj (JsonObj.cons k v JsonObj.nil) ++ '}' :: rest =
            '"' :: (escStr k ++ '"' :: (':' :: (printJson v ++ '}' :: rest))) := by
          simp [printObj, printStr]
        rw [hpr]
        simp [parseObjItems, parseStrBody_escStr]
        rw [ihJ v ('}' :: rest) hJ rfl]
        simp
      | cons k2 v2 t2 =>
        have hpr : printObj (JsonObj.cons k v (JsonObj.cons k2 v2 t2)) ++ '}' :: rest =
            '"' :: (escStr k ++ '"' :: (':' ::
              (printJson v ++ ',' :: (printObj (JsonObj.cons k2 v2 t2) ++ '}' :: rest)))) := by
          simp [printObj, printStr]
        rw [hpr]
        have hsO2 : sizeO (JsonObj.cons k2 v2 t2) ≤ fuel := by
          simp [sizeO] at hsize ⊢; omega
        simp [parseObjItems, parseStrBody_escStr]
        rw [ihJ v (',' :: (printObj (JsonObj.cons k2 v2 t2) ++ '}' :: rest)) hJ rfl]
        simp [ihO k2 v2 t2 rest hsO2]

mutual
theorem sizeJ_le_printLen : ∀ j, sizeJ j ≤ (printJson j).length
  | Json.null => by simp [sizeJ, printJson]
  | Json.bool b => by cases b <;> simp [sizeJ, printJson]
  | Json.num n => by
      simp only [sizeJ, printJson, printInt]
      by_cases hneg : n < 0
      · simp [hneg]
      · simp only [hneg, if_false]
        have h := natDigits_ne_nil n.natAbs
        have : 0 < (natDigits n.natAbs).length := List.length_pos.mpr h
        omega
  | Json.str s => by simp [sizeJ, printJson, printStr]
  | Json.arr es => by
      have h := sizeA_le_printLen es
      simp only [sizeJ, printJson, List.length_cons, List.length_append]
      simp only [List.length_cons, List.length_nil]
      omega
  | Json.obj fs => by
      have h := sizeO_le_printLen fs
      simp only [sizeJ, printJson, List.length_cons, List.length_append]
      simp only [List.length_cons, List.length_nil]
      omega
theorem sizeA_le_printLen : ∀ es, sizeA es ≤ (printArr es).length + 1
  | JsonArr.nil => by simp [sizeA]
  | JsonArr.cons h t => by
      have h1 := sizeJ_le_printLen h
      have h2 := sizeA_le_printLen t
      cases t with
      | nil => simp only [sizeA, printArr] at *; omega
      | cons h2a t2 =>
        simp only [sizeA, printArr, List.length_append, List.length_cons] at *
        omega
theorem sizeO_le_printLen : ∀ fs, sizeO fs ≤ (printObj fs).length + 1
  | JsonObj.nil => by simp [sizeO]
  | JsonObj.cons k v t => by
      have h1 := sizeJ_le_printLen v
      have h2 := sizeO_le_printLen t
      cases t with
      | nil => simp only [sizeO, printObj, List.length_append, List.length_cons] at *; omega
      | cons k2 v2 t2 =>
        simp only [sizeO, printObj, List.length_append, List.length_cons] at *
        omega
end

/-- Round trip: parsing a printed JSON document recovers the value exactly
(model of `JSON.parse(JSON.stringify(v))`). -/
theorem parseJsonTop_printJson (j : Json) : parseJsonTop (printJson j) = some j := by
  unfold parseJsonTop
  have h := (parse_print ((printJson j).length + 1)).1 j []
    (by have := sizeJ_le_printLen j; omega) rfl
  rw [List.append_nil] at h
  rw [h]

/-! ## The identity store and its JSON representation

The persisted state layout (spec section 6): a JSON object
`{ [name: string]: number[][] }`.  A `Descriptor` is one face embedding;
an `IdentityStore` maps person names to their registered descriptors,
in insertion order, as a JavaScript object does. -/

/-- One face-descriptor vector (numeric payload, opaque to the app). -/
abbrev Descriptor := List Int

/-- The persisted store: names paired with their descriptor collections, in
object-key order. -/
abbrev IdentityStore := List (List Char × List Descriptor)

/-- Encode one descriptor as a JSON array of numbers. -/
def descToJson : Descriptor → JsonArr
  | [] => JsonArr.nil
  | x :: xs => JsonArr.cons (Json.num x) (descToJson xs)

/-- Encode a descriptor collection as a JSON array of arrays. -/
def descsToJson : List Descriptor → JsonArr
  | [] => JsonArr.nil
  | d :: ds => JsonArr.cons (Json.arr (descToJson d)) (descsToJson ds)

/-- Encode the store fields. -/
def storeToJsonObj : IdentityStore → JsonObj
  | [] => JsonObj.nil
  | (k, ds) :: rest => JsonObj.cons k (Json.arr (descsToJson ds)) (storeToJsonObj rest)

/-- Encode a store as the JSON object the app persists. -/
def dbToJson (db : IdentityStore) : Json := Json.obj (storeToJsonObj db)

/-- Decode a JSON array of numbers into a descriptor. -/
def jsonToDesc : JsonArr → Option Descriptor
  | JsonArr.nil => some []
  | JsonArr.cons (Json.num x) t => (jsonToDesc t).map (fun d => x :: d)
  | JsonArr.cons _ _ => none

/-- Decode a JSON array of arrays into a descriptor collection. -/
def jsonToDescs : JsonArr → Option (List Descriptor)
  | JsonArr.nil => some []
  | JsonArr.cons (Json.arr a) t =>
    match jsonToDesc a, jsonToDescs t with
    | some d, some ds => some (d :: ds)
    | _, _ => none
  | JsonArr.cons _ _ => none

/-- Decode object fields into store entries. -/
def jsonObjToStore : JsonObj → Option IdentityStore
  | JsonObj.nil => some []
  | JsonObj.cons k v t =>
    match v with
    | Json.arr a =>
      match jsonToDescs a, jsonObjToStore t with
      | some ds, some rest => some ((k, ds) :: rest)
      | _, _ => none
    | _ => none

/-- Interpret a parsed JSON value as an identity store (the shape the app's
store-reading code assumes). -/
def jsonToStore : Json → Option IdentityStore
  | Json.obj o => jsonObjToStore o
  | _ => none

theorem jsonToDesc_descToJson (d : Descriptor) : jsonToDesc (descToJson d) = some d := by
  induction d with
  | nil => simp [descToJson, jsonToDesc]
  | cons x xs ih => simp [descToJson, jsonToDesc, ih]

theorem jsonToDescs_descsToJson (ds : List Descriptor) :
    jsonToDescs (descsToJson ds) = some ds := by
  induction ds with
  | nil => simp [descsToJson, jsonToDescs]
  | cons d ds ih => simp [descsToJson, jsonToDescs, jsonToDesc_descToJson, ih]

/-- Decoding an encoded store recovers it exactly. -/
theorem jsonToStore_dbToJson (db : IdentityStore) : jsonToStore (dbToJson db) = some db := by
  simp only [dbToJson, jsonToStore]
  induction db with
  | nil => simp [storeToJsonObj, jsonObjToStore]
  | cons e rest ih =>
    obtain ⟨k, ds⟩ := e
    simp [storeToJsonObj, jsonObjToStore, jsonToDescs_descsToJson, ih]

/-! ## Browser key-value storage and the persistence pair -/

/-- The `localStorage` model: a map from keys to stored strings. -/
abbrev WebStorage := List Char → Option (List Char)

/-- `localStorage.getItem`. -/
def getItem (k : List Char) (σ : WebStorage) : Option (List Char) := σ k

/-- `localStorage.setItem`. -/
def setItem (k v : List Char) (σ : WebStorage) : WebStorage :=
  fun q => if q = k then some v else σ q

/-- `localStorage.removeItem`. -/
def removeItem (k : List Char) (σ : WebStorage) : WebStorage :=
  fun q => if q = k then none else σ q

/-- The single persistence key, `const LS_DB_KEY = 'facelab_db_v1'`
(app.js line 40). -/
def LS_DB_KEY : List Char := "facelab_db_v1".data

/-- `saveDB` (app.js 247-249):
`localStorage.setItem(LS_DB_KEY, JSON.stringify(db))`. -/
def saveDB (db : IdentityStore) (σ : WebStorage) : WebStorage :=
  setItem LS_DB_KEY (printJson (dbToJson db)) σ

/-- `loadDB` (app.js 251-257):
`JSON.parse(localStorage.getItem(LS_DB_KEY) || '{}')` with the thrown
`SyntaxError` caught and replaced by `{}`.  The `||` fallback fires on the two
falsy stored values, an absent key and the empty string. -/
def loadDB (σ : WebStorage) : Json :=
  let raw := match getItem LS_DB_KEY σ with
    | none => "{}".data
    | some s => if s = [] then "{}".data else s
  match parseJsonTop raw with
  | some j => j
  | none => Json.obj JsonObj.nil

/-! ## Matcher construction and application state -/

/-- A labeled descriptor group
(`new faceapi.LabeledFaceDescriptors(label, floatDescs)`); the
`Float32Array` conversion is the identity on the opaque numeric payload. -/
structure LabeledFaceDescriptors where
  label : List Char
  descriptors : List Descriptor
deriving DecidableEq

/-- The matcher object the app constructs
(`new faceapi.FaceMatcher(labeledDescriptors, 0.6)`); the matching math is the
external library's.  The float literal `0.6` is modelled by the rational
`3 / 5`. -/
structure FaceMatcher where
  labeledDescriptors : List LabeledFaceDescriptors
  distanceThreshold : ℚ
deriving DecidableEq

/-- The matcher value computed by `makeFaceMatcherFromStorage`
(app.js 260-272) from a loaded store: one labeled group is pushed for every
key of the object — including keys whose descriptor array is empty — and the
matcher is `null` exactly when the resulting group list is empty. -/
def makeFaceMatcher (db : IdentityStore) : Option FaceMatcher :=
  let labeledDescriptors := db.map (fun e => LabeledFaceDescriptors.mk e.1 e.2)
  if labeledDescriptors.length = 0 then none
  else some (FaceMatcher.mk labeledDescriptors (3 / 5))

/-- The global session state the store operations touch: the persisted
storage, the `faceMatcher` global, and the `dbCount` display. -/
structure AppState where
  localStorage : WebStorage
  faceMatcher : Option FaceMatcher
  dbCountText : Nat

/-- `makeFaceMatcherFromStorage` (app.js 260-272) as a state update: load the
store, rebuild `faceMatcher`, set the key count display.  A persisted value
that is not store-shaped would make the JavaScript per-key loop throw a
`TypeError`; that escape from the modelled domain is represented by leaving
the state unchanged, and every claim about this function is stated on
store-shaped storage. -/
def makeFaceMatcherFromStorage (s : AppState) : AppState :=
  match jsonToStore (loadDB s.localStorage) with
  | some db => { s with faceMatcher := makeFaceMatcher db, dbCountText := db.length }
  | none => s

/-! ## Registration -/

/-- JavaScript whitespace for `String.prototype.trim` (the ASCII set). -/
def jsWhitespace (c : Char) : Bool :=
  c = ' ' || c = '\t' || c = '\n' || c = '\r' || c = '\x0b' || c = '\x0c'

/-- `value.trim()`: strip leading and trailing whitespace. -/
def trim (s : List Char) : List Char :=
  ((s.dropWhile jsWhitespace).reverse.dropWhile jsWhitespace).reverse

/-- Object member read `db[label]`. -/
def storeLookup : IdentityStore → List Char → Option (List Descriptor)
  | [], _ => none
  | e :: t, k => if e.1 = k then some e.2 else storeLookup t k

/-- Object member write `db[label] = v`: overwrite in place when the key
exists, append the new key at the end otherwise (JavaScript key order). -/
def storeUpdate : IdentityStore → List Char → List Descriptor → IdentityStore
  | [], k, v => [(k, v)]
  | e :: t, k, v => if e.1 = k then (k, v) :: t else e :: storeUpdate t k v

/-- The user-visible result of one registration attempt. -/
inductive RegisterOutcome where
  | alertEnterName
  | alertChooseImages
  | alertLoadModels
  | alertNoFaces
  | registered (count : Nat) (label : List Char)
  | storageShapeError
deriving DecidableEq

/-- `registerLabeledFaces` (app.js 204-237).  `detect` stands for the external
`detectSingleFace(img, ...).withFaceLandmarks().withFaceDescriptor()`
pipeline: `none` models an image in which no face is found (such an image is
skipped with a console warning); `Array.from(detection.descriptor)` is the
identity on the opaque payload.  `storageShapeError` marks the unmodelled
JavaScript `TypeError` raised on a non-store-shaped persisted value. -/
def registerLabeledFaces {Img : Type} (detect : Img → Option Descriptor)
    (labelRaw : List Char) (files : List Img) (isModelsLoaded : Bool)
    (s : AppState) : AppState × RegisterOutcome :=
  let label := trim labelRaw
  if label = [] then (s, RegisterOutcome.alertEnterName)
  else if files.length = 0 then (s, RegisterOutcome.alertChooseImages)
  else if isModelsLoaded = false then (s, RegisterOutcome.alertLoadModels)
  else
    let descriptors := files.filterMap detect
    if descriptors.length = 0 then (s, RegisterOutcome.alertNoFaces)
    else
      match jsonToStore (loadDB s.localStorage) with
      | none => (s, RegisterOutcome.storageShapeError)
      | some db =>
        let db2 := storeUpdate db label ((storeLookup db label).getD [] ++ descriptors)
        let s2 := { s with localStorage := saveDB db2 s.localStorage }
        (makeFaceMatcherFromStorage s2, RegisterOutcome.registered descriptors.length label)

/-! ## Clear, import, export -/

/-- The `btnClearDB` click handler (app.js 240-244): after an affirmative
confirmation, remove the persisted key and rebuild the matcher; otherwise do
nothing. -/
def clearDBHandler (confirmed : Bool) (s : AppState) : AppState :=
  if confirmed = false then s
  else makeFaceMatcherFromStorage
    { s with localStorage := removeItem LS_DB_KEY s.localStorage }

/-- The user-visible result of one import attempt. -/
inductive ImportOutcome where
  | imported
  | alertInvalidJson
deriving DecidableEq

/-- The import file handler (app.js 285-297): parse the document text; on
success persist `JSON.stringify(parsed)` under the single key and rebuild the
matcher; on a parse failure alert `Invalid JSON file` and change nothing. -/
def importHandler (text : List Char) (s : AppState) : AppState × ImportOutcome :=
  match parseJsonTop text with
  | some parsed =>
    (makeFaceMatcherFromStorage
        { s with localStorage := setItem LS_DB_KEY (printJson parsed) s.localStorage },
      ImportOutcome.imported)
  | none => (s, ImportOutcome.alertInvalidJson)

/-- The export handler (app.js 275-282): the text of the downloaded document
is `JSON.stringify(loadDB())`. -/
def exportDB (σ : WebStorage) : List Char := printJson (loadDB σ)

/-! ## Detection options -/

/-- The option object handed to the external detector. -/
inductive DetectionOptions where
  | tinyFaceDetector (inputSize : Nat) (scoreThreshold : ℚ)
  | ssdMobilenetv1 (minConfidence : ℚ)
deriving DecidableEq

/-- UI control state for detection: the model select value and the two numeric
inputs after `parseInt` / `parseFloat` (`none` models `NaN`). -/
structure DetectionControls where
  detectionModel : List Char
  inputSizeValue : Option Nat
  scoreThresholdValue : Option ℚ

/-- JavaScript `x || d` on a parsed natural: `NaN` and `0` are falsy. -/
def jsOrNat (v : Option Nat) (d : Nat) : Nat :=
  match v with
  | none => d
  | some x => if x = 0 then d else x

/-- JavaScript `x || d` on a parsed float: `NaN` and `0` are falsy. -/
def jsOrRat (v : Option ℚ) (d : ℚ) : ℚ :=
  match v with
  | none => d
  | some x => if x = 0 then d else x

/-- `updateDetectionOptions` (app.js 76-86): recompute the option object from
the UI control state (`inputSize` defaulting to 320, `scoreThreshold` to
0.5). -/
def updateDetectionOptions (c : DetectionControls) : DetectionOptions :=
  let inputSize := jsOrNat c.inputSizeValue 320
  let scoreThreshold := jsOrRat c.scoreThresholdValue (1 / 2)
  if c.detectionModel = "tiny".data then
    DetectionOptions.tinyFaceDetector inputSize scoreThreshold
  else DetectionOptions.ssdMobilenetv1 scoreThreshold

/-- The option object `detectionLoop` (app.js 129) actually passes to
`faceapi.detectAllFaces`: a freshly constructed
`new faceapi.SsdMobilenetv1Options({ minConfidence: 0.5 })`, whatever the
control state — the loop calls `updateDetectionOptions()` but never reads the
`detectionOptions` global that call sets. -/
def detectionLoopDetectOptions (_c : DetectionControls) : DetectionOptions :=
  DetectionOptions.ssdMobilenetv1 (1 / 2)

/-! ## Expression selection in the render loop -/

/-- One entry of `Object.entries(det.expressions)`: name and score. -/
abbrev ExpressionEntry := List Char × ℚ

/-- Stable insertion for a descending sort by score: with the comparator
`(a, b) => b[1] - a[1]` and the engine's stable `Array.prototype.sort`, an
earlier element precedes any later element of equal score. -/
def insertDescending (x : ExpressionEntry) :
    List ExpressionEntry → List ExpressionEntry
  | [] => [x]
  | y :: ys => if y.2 ≤ x.2 then x :: y :: ys else y :: insertDescending x ys

/-- `Object.entries(expr).sort((a, b) => b[1] - a[1])` as a stable descending
sort. -/
def sortExpressions (es : List ExpressionEntry) : List ExpressionEntry :=
  es.foldr insertDescending []

/-- `Object.entries(expr).sort((a, b) => b[1] - a[1])[0]` — the expression the
render loop reports (app.js 162-166); `none` models the `undefined` read on an
empty entries list, displayed as a dash. -/
def maxExpression (es : List ExpressionEntry) : Option ExpressionEntry :=
  (sortExpressions es).head?

/-! ## Helper lemmas about the persistence pair and state updates -/

theorem printJson_dbToJson_ne_nil (db : IdentityStore) : printJson (dbToJson db) ≠ [] := by
  simp [dbToJson, printJson]

/-- Loading immediately after saving yields the saved store's JSON encoding. -/
theorem loadDB_saveDB (db : IdentityStore) (σ : WebStorage) :
    loadDB (saveDB db σ) = dbToJson db := by
  have hget : getItem LS_DB_KEY (saveDB db σ) = some (printJson (dbToJson db)) := by
    simp [saveDB, setItem, getItem]
  unfold loadDB
  rw [hget]
  simp only [printJson_dbToJson_ne_nil db, if_false, parseJsonTop_printJson]

/-- Loading after saving recovers the saved store exactly. -/
theorem jsonToStore_loadDB_saveDB (db : IdentityStore) (σ : WebStorage) :
    jsonToStore (loadDB (saveDB db σ)) = some db := by
  rw [loadDB_saveDB, jsonToStore_dbToJson]

theorem makeFaceMatcherFromStorage_localStorage (s : AppState) :
    (makeFaceMatcherFromStorage s).localStorage = s.localStorage := by
  unfold makeFaceMatcherFromStorage
  cases h : jsonToStore (loadDB s.localStorage) <;> simp

/-- The matcher-coherence invariant (spec section 3): whenever the persisted
value is store-shaped, the in-memory matcher is the one rebuilt from it. -/
def matcherInSync (s : AppState) : Prop :=
  ∀ db, jsonToStore (loadDB s.localStorage) = some db → s.faceMatcher = makeFaceMatcher db

theorem matcherInSync_makeFaceMatcherFromStorage (s : AppState) :
    matcherInSync (makeFaceMatcherFromStorage s) := by
  intro db hdb
  rw [makeFaceMatcherFromStorage_localStorage] at hdb
  unfold makeFaceMatcherFromStorage
  rw [hdb]

theorem storeLookup_storeUpdate_self (db : IdentityStore) (k : List Char)
    (v : List Descriptor) : storeLookup (storeUpdate db k v) k = some v := by
  induction db with
  | nil => simp [storeUpdate, storeLookup]
  | cons e t ih =>
    by_cases he : e.1 = k
    · simp [storeUpdate, he, storeLookup]
    · simp [storeUpdate, he, storeLookup, ih]

theorem storeLookup_storeUpdate_other (db : IdentityStore) (k q : List Char)
    (v : List Descriptor) (h : q ≠ k) :
    storeLookup (storeUpdate db k v) q = storeLookup db q := by
  induction db with
  | nil => simp [storeUpdate, storeLookup, Ne.symm h]
  | cons e t ih =>
    by_cases he : e.1 = k
    · have hk : ¬ k = q := Ne.symm h
      have he1 : ¬ e.1 = q := by rw [he]; exact hk
      simp [storeUpdate, he, storeLookup, hk, he1]
    · simp only [storeUpdate, he, if_false]
      by_cases heq : e.1 = q <;> simp [storeLookup, heq, ih]

/-- The success path of registration, characterized from its observable
outcome. -/
theorem registerLabeledFaces_registered {Img : Type} (detect : Img → Option Descriptor)
    (labelRaw : List Char) (files : List Img) (ml : Bool) (s s2 : AppState)
    (k : Nat) (lbl : List Char)
    (heq : registerLabeledFaces detect labelRaw files ml s =
      (s2, RegisterOutcome.registered k lbl)) :
    lbl = trim labelRaw ∧ k = (files.filterMap detect).length ∧
    ∃ db, jsonToStore (loadDB s.localStorage) = some db ∧
      s2 = makeFaceMatcherFromStorage
        { s with localStorage := (saveDB
            (storeUpdate db (trim labelRaw)
              ((storeLookup db (trim labelRaw)).getD [] ++ files.filterMap detect))
            s.localStorage) } := by
  by_cases h1 : trim labelRaw = []
  · simp [registerLabeledFaces, h1] at heq
  by_cases h2 : files.length = 0
  · simp [registerLabeledFaces, h1, h2] at heq
  by_cases h3 : ml = false
  · simp [registerLabeledFaces, h1, h2, h3] at heq
  by_cases h4 : (files.filterMap detect).length = 0
  · simp [registerLabeledFaces, h1, h2, h3, h4] at heq
  cases hdb : jsonToStore (loadDB s.localStorage) with
  | none => simp [registerLabeledFaces, h1, h2, h3, h4, hdb] at heq
  | some db =>
    simp [registerLabeledFaces, h1, h2, h3, h4, hdb] at heq
    obtain ⟨hs2, hk, hlbl⟩ := heq
    exact ⟨hlbl.symm, hk.symm, db, rfl, hs2.symm⟩

/-- The success path of registration, forward form. -/
theorem registerLabeledFaces_success {Img : Type} (detect : Img → Option Descriptor)
    (labelRaw : List Char) (files : List Img) (s : AppState) (db : IdentityStore)
    (hshape : jsonToStore (loadDB s.localStorage) = some db)
    (hlbl : trim labelRaw ≠ []) (hfiles : files.length ≠ 0)
    (hdesc : (files.filterMap detect).length ≠ 0) :
    registerLabeledFaces detect labelRaw files true s =
      (makeFaceMatcherFromStorage
        { s with localStorage := (saveDB
            (storeUpdate db (trim labelRaw)
              ((storeLookup db (trim labelRaw)).getD [] ++ files.filterMap detect))
            s.localStorage) },
       RegisterOutcome.registered (files.filterMap detect).length (trim labelRaw)) := by
  simp [registerLabeledFaces, hlbl, hfiles, hdesc, hshape]

/-- Registration with no usable image: alert, no state change. -/
theorem registerLabeledFaces_noFaces {Img : Type} (detect : Img → Option Descriptor)
    (labelRaw : List Char) (files : List Img) (s : AppState)
    (hlbl : trim labelRaw ≠ []) (hfiles : files.length ≠ 0)
    (hdesc : (files.filterMap detect).length = 0) :
    registerLabeledFaces detect labelRaw files true s =
      (s, RegisterOutcome.alertNoFaces) := by
  simp [registerLabeledFaces, hlbl, hfiles, hdesc]

/-- A name consisting only of whitespace trims to the empty string. -/
theorem trim_eq_nil_of_whitespace (s : List Char)
    (h : ∀ c ∈ s, jsWhitespace c = true) : trim s = [] := by
  unfold trim
  have h1 : s.dropWhile jsWhitespace = [] := by
    rw [List.dropWhile_eq_nil_iff]
    exact h
  simp [h1]

/-! ## Helper lemmas about expression selection -/

theorem insertDescending_headq (x : ExpressionEntry) (l : List ExpressionEntry) :
    (insertDescending x l).head? =
      some (match l.head? with
        | none => x
        | some y => if y.2 ≤ x.2 then x else y) := by
  cases l with
  | nil => simp [insertDescending]
  | cons y ys => by_cases h : y.2 ≤ x.2 <;> simp [insertDescending, h]

/-- The first maximum of an entry list, computed directly: the head of the
stable descending sort. -/
def firstMaxEntry : List ExpressionEntry → Option ExpressionEntry
  | [] => none
  | x :: xs =>
    some (match firstMaxEntry xs with
      | none => x
      | some b => if b.2 ≤ x.2 then x else b)

theorem maxExpression_eq_firstMaxEntry (es : List ExpressionEntry) :
    maxExpression es = firstMaxEntry es := by
  induction es with
  | nil => rfl
  | cons x xs ih =>
    have h0 : maxExpression (x :: xs) = (insertDescending x (sortExpressions xs)).head? := rfl
    rw [h0, insertDescending_headq]
    have hh : (sortExpressions xs).head? = firstMaxEntry xs := ih
    rw [hh]
    rfl

theorem firstMaxEntry_spec (es : List ExpressionEntry) (e : ExpressionEntry)
    (h : firstMaxEntry es = some e) :
    e ∈ es ∧ (∀ x ∈ es, x.2 ≤ e.2) ∧
    ∃ pre suf, es = pre ++ e :: suf ∧ ∀ x ∈ pre, x.2 < e.2 := by
  induction es generalizing e with
  | nil => simp [firstMaxEntry] at h
  | cons x xs ih =>
    cases hfm : firstMaxEntry xs with
    | none =>
      have hxs : xs = [] := by
        cases xs with
        | nil => rfl
        | cons a l => simp [firstMaxEntry] at hfm
      subst hxs
      simp [firstMaxEntry] at h
      subst h
      exact ⟨by simp, by simp, [], [], by simp, by simp⟩
    | some b =>
      obtain ⟨hbmem, hbub, pre, suf, hsplit, hpre⟩ := ih b hfm
      have hh : firstMaxEntry (x :: xs) = some (if b.2 ≤ x.2 then x else b) := by
        simp [firstMaxEntry, hfm]
      rw [hh] at h
      by_cases hle : b.2 ≤ x.2
      · rw [if_pos hle] at h
        simp at h
        subst h
        refine ⟨by simp, ?_, [], xs, by simp, by simp⟩
        intro y hy
        rcases List.mem_cons.mp hy with rfl | hy2
        · exact le_refl _
        · exact le_trans (hbub y hy2) hle
      · rw [if_neg hle] at h
        simp at h
        subst h
        push_neg at hle
        refine ⟨List.mem_cons_of_mem x hbmem, ?_, x :: pre, suf, by simp [hsplit], ?_⟩
        · intro y hy
          rcases List.mem_cons.mp hy with rfl | hy2
          · exact le_of_lt hle
          · exact hbub y hy2
        · intro y hy
          rcases List.mem_cons.mp hy with rfl | hy2
          · exact hle
          · exact hpre y hy2

theorem maxExpression_isSome (es : List ExpressionEntry) (h : es ≠ []) :
    (maxExpression es).isSome = true := by
  cases es with
  | nil => exact absurd rfl h
  | cons x xs =>
    rw [maxExpression_eq_firstMaxEntry]
    simp [firstMaxEntry]

/-! ## Claim theorems -/

/-- Claim C1, counterexample: the claim says the matcher is absent whenever
every name maps to an empty descriptor collection, and that such names
contribute no labeled descriptor group.  On the store with the single name
`A` mapped to an empty collection, `makeFaceMatcherFromStorage`'s matcher
computation is not absent, and the empty-collection name does contribute a
(degenerate) labeled group. -/
theorem C1_counterexample :
    makeFaceMatcher [(['A'], ([] : List Descriptor))] =
      some (FaceMatcher.mk [LabeledFaceDescriptors.mk ['A'] []] (3 / 5)) := rfl

/-- Claim C1, amended: the matcher rebuilt from a store S is absent if and
only if S has no names at all; every name of S — including one whose
descriptor collection is empty — contributes a labeled descriptor group. -/
theorem C1_matcher_absent_iff_store_has_no_names (db : IdentityStore) :
    (makeFaceMatcher db = none ↔ db = []) ∧
    (db ≠ [] →
      makeFaceMatcher db =
        some (FaceMatcher.mk (db.map (fun e => LabeledFaceDescriptors.mk e.1 e.2))
          (3 / 5))) := by
  constructor
  · by_cases hdb : db = []
    · subst hdb; simp [makeFaceMatcher]
    · simp [makeFaceMatcher, List.length_map, List.length_eq_zero, hdb]
  · intro hne
    simp [makeFaceMatcher, List.length_map, List.length_eq_zero, hne]

/-- Witness for the amended claim C1 at a concrete one-name store. -/
theorem C1_witness :
    makeFaceMatcher [(['B'], [[2]])] =
      some (FaceMatcher.mk [LabeledFaceDescriptors.mk ['B'] [[2]]] (3 / 5)) :=
  (C1_matcher_absent_iff_store_has_no_names [(['B'], [[2]])]).2 (by decide)

/-- Claim C2: the claim (and spec sections 2 and 3) says each tick's detection
call uses the user-configured DetectionOptions recomputed from the control
state.  The code recomputes them but passes a hardcoded
`new faceapi.SsdMobilenetv1Options({ minConfidence: 0.5 })` to
`detectAllFaces` (app.js line 129) — at the control state (model `tiny`,
input size 320, threshold 0.9) the options passed differ from the configured
ones, the divergence spec section 9 itself flags as an unintentional slip. -/
theorem C2_detection_call_ignores_user_options :
    detectionLoopDetectOptions
        (DetectionControls.mk "tiny".data (some 320) (some (9 / 10))) =
      DetectionOptions.ssdMobilenetv1 (1 / 2) ∧
    updateDetectionOptions
        (DetectionControls.mk "tiny".data (some 320) (some (9 / 10))) =
      DetectionOptions.tinyFaceDetector 320 (9 / 10) ∧
    DetectionOptions.ssdMobilenetv1 (1 / 2) ≠
      DetectionOptions.tinyFaceDetector 320 (9 / 10) := by
  refine ⟨rfl, ?_, by simp⟩
  unfold updateDetectionOptions jsOrNat jsOrRat
  norm_num

/-- Claim C3: registering name L over N images of which K yield a face
appends exactly those K descriptors to L's entry (created when absent, the
prior descriptors preserved, every other entry untouched), and with K = 0 the
store is not mutated and the `NoFaceDetected` failure is surfaced. -/
theorem C3_registration_append_semantics {Img : Type} (detect : Img → Option Descriptor)
    (labelRaw : List Char) (files : List Img) (s : AppState) (db : IdentityStore)
    (hshape : jsonToStore (loadDB s.localStorage) = some db)
    (hlbl : trim labelRaw ≠ []) (hfiles : files.length ≠ 0) :
    ((files.filterMap detect).length = 0 →
      registerLabeledFaces detect labelRaw files true s =
        (s, RegisterOutcome.alertNoFaces)) ∧
    ((files.filterMap detect).length ≠ 0 →
      ∃ s2, registerLabeledFaces detect labelRaw files true s =
          (s2, RegisterOutcome.registered (files.filterMap detect).length (trim labelRaw)) ∧
        ∃ db2, jsonToStore (loadDB s2.localStorage) = some db2 ∧
          storeLookup db2 (trim labelRaw) =
            some ((storeLookup db (trim labelRaw)).getD [] ++ files.filterMap detect) ∧
          ∀ q, q ≠ trim labelRaw → storeLookup db2 q = storeLookup db q) := by
  constructor
  · intro h0
    exact registerLabeledFaces_noFaces detect labelRaw files s hlbl hfiles h0
  · intro hK
    refine ⟨_, registerLabeledFaces_success detect labelRaw files s db hshape hlbl hfiles hK,
      storeUpdate db (trim labelRaw)
        ((storeLookup db (trim labelRaw)).getD [] ++ files.filterMap detect), ?_, ?_, ?_⟩
    · rw [makeFaceMatcherFromStorage_localStorage]
      exact jsonToStore_loadDB_saveDB _ s.localStorage
    · exact storeLookup_storeUpdate_self db (trim labelRaw) _
    · intro q hq
      exact storeLookup_storeUpdate_other db (trim labelRaw) q _ hq

/-- Witness for claim C3: registering `A` over two images of which one yields
a descriptor reports one registered face. -/
theorem C3_witness :
    (registerLabeledFaces (fun n => if n = 1 then some ([7] : Descriptor) else none)
        ['A'] [1, 2] true (AppState.mk (fun _ => none) none 0)).2 =
      RegisterOutcome.registered 1 ['A'] := by
  obtain ⟨-, h⟩ := C3_registration_append_semantics
    (fun n => if n = 1 then some ([7] : Descriptor) else none) ['A'] [1, 2]
    (AppState.mk (fun _ => none) none 0) [] (by rfl) (by decide) (by decide)
  obtain ⟨s2, heq, -⟩ := h (by decide)
  rw [heq]
  exact (by decide : RegisterOutcome.registered
    (List.filterMap (fun n => if n = 1 then some [7] else none) [1, 2]).length
    (trim ['A']) = RegisterOutcome.registered 1 ['A'])

/-- Claim C4: importing a document whose text fails JSON parsing leaves the
persisted store and the in-memory matcher exactly as they were (the returned
state is the input state, so no partial write and no rebuild happened) and
surfaces the `Invalid JSON file` alert. -/
theorem C4_invalid_import_leaves_state_unchanged (text : List Char) (s : AppState)
    (h : parseJsonTop text = none) :
    importHandler text s = (s, ImportOutcome.alertInvalidJson) := by
  simp [importHandler, h]

/-- Witness for claim C4 on a concrete malformed document. -/
theorem C4_witness :
    importHandler "not json".data (AppState.mk (fun _ => none) none 0) =
      (AppState.mk (fun _ => none) none 0, ImportOutcome.alertInvalidJson) :=
  C4_invalid_import_leaves_state_unchanged "not json".data
    (AppState.mk (fun _ => none) none 0) (by rfl)

/-- Claim C5: every mutating store operation — the save of a successful
registration, a confirmed clear, a successful import — ends in a full matcher
rebuild from the just-persisted store, so when control returns to the user
the in-memory matcher reflects the last-saved IdentityStore. -/
theorem C5_mutations_rebuild_matcher :
    (∀ (Img : Type) (detect : Img → Option Descriptor) (labelRaw : List Char)
        (files : List Img) (ml : Bool) (s s2 : AppState) (k : Nat) (lbl : List Char),
      registerLabeledFaces detect labelRaw files ml s =
        (s2, RegisterOutcome.registered k lbl) →
      matcherInSync s2) ∧
    (∀ s : AppState, matcherInSync (clearDBHandler true s)) ∧
    (∀ (text : List Char) (s s2 : AppState),
      importHandler text s = (s2, ImportOutcome.imported) → matcherInSync s2) := by
  refine ⟨?_, ?_, ?_⟩
  · intro Img detect labelRaw files ml s s2 k lbl heq
    obtain ⟨-, -, db, -, hs2⟩ :=
      registerLabeledFaces_registered detect labelRaw files ml s s2 k lbl heq
    rw [hs2]
    exact matcherInSync_makeFaceMatcherFromStorage _
  · intro s
    have e : clearDBHandler true s = makeFaceMatcherFromStorage
        { s with localStorage := removeItem LS_DB_KEY s.localStorage } := rfl
    rw [e]
    exact matcherInSync_makeFaceMatcherFromStorage _
  · intro text s s2 heq
    cases hp : parseJsonTop text with
    | none => simp [importHandler, hp] at heq
    | some parsed =>
      simp [importHandler, hp] at heq
      rw [← heq]
      exact matcherInSync_makeFaceMatcherFromStorage _

/-- Witness for claim C5: after a confirmed clear on a state whose matcher
was stale, the matcher equals the rebuild from the (now empty) store. -/
theorem C5_witness :
    (clearDBHandler true
        (AppState.mk (fun _ => none) (some (FaceMatcher.mk [] (3 / 5))) 7)).faceMatcher =
      makeFaceMatcher [] :=
  C5_mutations_rebuild_matcher.2.1
    (AppState.mk (fun _ => none) (some (FaceMatcher.mk [] (3 / 5))) 7) [] (by rfl)

/-- Claim C6: saving a well-formed store with `saveDB` and loading it back
with `loadDB` reproduces the store exactly — the loaded document is the saved
store's encoding, and decoding it yields the original store. -/
theorem C6_save_load_roundtrip (db : IdentityStore) (σ : WebStorage)
    (_hwf : (db.map Prod.fst).Nodup) :
    loadDB (saveDB db σ) = dbToJson db ∧
    jsonToStore (loadDB (saveDB db σ)) = some db :=
  ⟨loadDB_saveDB db σ, jsonToStore_loadDB_saveDB db σ⟩

/-- Witness for claim C6 on a concrete two-name store with a negative
descriptor component and an empty collection. -/
theorem C6_witness :
    jsonToStore (loadDB (saveDB [(['A'], [[1, -2]]), (['B'], [])] (fun _ => none))) =
      some [(['A'], [[1, -2]]), (['B'], [])] :=
  (C6_save_load_roundtrip [(['A'], [[1, -2]]), (['B'], [])] (fun _ => none) (by decide)).2

/-- Claim C7: `loadDB` on a persisted value that is not valid JSON — and
likewise on an absent key — returns the empty store; the model's `loadDB` is
a total function, the thrown `SyntaxError` being swallowed by the catch. -/
theorem C7_corrupt_or_absent_load_yields_empty_store (v : List Char) (σ σa : WebStorage)
    (hbad : parseJsonTop v = none) (habsent : getItem LS_DB_KEY σa = none) :
    loadDB (setItem LS_DB_KEY v σ) = Json.obj JsonObj.nil ∧
    loadDB σa = Json.obj JsonObj.nil := by
  have hpe : parseJsonTop ("{}".data) = some (Json.obj JsonObj.nil) := rfl
  constructor
  · have hget : getItem LS_DB_KEY (setItem LS_DB_KEY v σ) = some v := by
      simp [getItem, setItem]
    unfold loadDB
    rw [hget]
    by_cases hv : v = []
    · subst hv
      simp [hpe]
    · simp [hv, hbad]
  · unfold loadDB
    rw [habsent]
    simp [hpe]

/-- Witness for claim C7 on a concrete corrupt value and an empty storage. -/
theorem C7_witness :
    loadDB (setItem LS_DB_KEY "corrupt".data (fun _ => none)) = Json.obj JsonObj.nil ∧
    loadDB (fun _ => none) = Json.obj JsonObj.nil :=
  C7_corrupt_or_absent_load_yields_empty_store "corrupt".data (fun _ => none)
    (fun _ => none) (by rfl) (by rfl)

/-- Claim C8: on a nonempty expressions map the render loop reports an
expression whose score is maximal, and among entries tied at the maximum the
first-listed one is reported (every entry before the reported one scores
strictly less). -/
theorem C8_reported_expression_is_first_max (es : List ExpressionEntry) :
    (es ≠ [] → (maxExpression es).isSome = true) ∧
    (∀ e, maxExpression es = some e →
      e ∈ es ∧ (∀ x ∈ es, x.2 ≤ e.2) ∧
      ∃ pre suf, es = pre ++ e :: suf ∧ ∀ x ∈ pre, x.2 < e.2) := by
  refine ⟨maxExpression_isSome es, ?_⟩
  intro e he
  rw [maxExpression_eq_firstMaxEntry] at he
  exact firstMaxEntry_spec es e he

/-- Witness for claim C8 on a concrete tie: two entries share the maximal
score 2 and the first-listed one is reported. -/
theorem C8_witness :
    maxExpression [(['h'], (2 : ℚ)), (['s'], 2), (['a'], 1)] = some (['h'], 2) ∧
    ∀ x ∈ [(['h'], (2 : ℚ)), (['s'], 2), (['a'], 1)], x.2 ≤ 2 := by
  have h : maxExpression [(['h'], (2 : ℚ)), (['s'], 2), (['a'], 1)] = some (['h'], 2) := by
    decide
  exact ⟨h, fun x hx =>
    ((C8_reported_expression_is_first_max [(['h'], (2 : ℚ)), (['s'], 2), (['a'], 1)]).2
      (['h'], 2) h).2.1 x hx⟩

/-- Claim C9: the entered name is trimmed before any check, so a
whitespace-only name is rejected exactly like an empty one (alert, state
unchanged — hence no extraction, no store write, no rebuild), and descriptors
that are stored are filed under the trimmed name. -/
theorem C9_name_trimmed_before_checks :
    (∀ (Img : Type) (detect : Img → Option Descriptor) (raw : List Char)
        (files : List Img) (ml : Bool) (s : AppState),
      (∀ c ∈ raw, jsWhitespace c = true) →
      registerLabeledFaces detect raw files ml s = (s, RegisterOutcome.alertEnterName)) ∧
    (∀ (Img : Type) (detect : Img → Option Descriptor) (raw : List Char)
        (files : List Img) (ml : Bool) (s s2 : AppState) (k : Nat) (lbl : List Char),
      registerLabeledFaces detect raw files ml s = (s2, RegisterOutcome.registered k lbl) →
      lbl = trim raw ∧
      ∀ db, jsonToStore (loadDB s.localStorage) = some db →
        jsonToStore (loadDB s2.localStorage) =
          some (storeUpdate db (trim raw)
            ((storeLookup db (trim raw)).getD [] ++ files.filterMap detect))) := by
  constructor
  · intro Img detect raw files ml s hws
    have h := trim_eq_nil_of_whitespace raw hws
    simp [registerLabeledFaces, h]
  · intro Img detect raw files ml s s2 k lbl heq
    obtain ⟨hlbl, -, db, hdb, hs2⟩ :=
      registerLabeledFaces_registered detect raw files ml s s2 k lbl heq
    refine ⟨hlbl, ?_⟩
    intro db0 hdb0
    rw [hdb] at hdb0
    obtain rfl : db = db0 := Option.some.inj hdb0
    rw [hs2, makeFaceMatcherFromStorage_localStorage]
    exact jsonToStore_loadDB_saveDB _ s.localStorage

/-- Witness for claim C9: a whitespace-only name is rejected with the
empty-name alert and no state change. -/
theorem C9_witness :
    registerLabeledFaces (fun _ : Nat => (none : Option Descriptor)) [' ', '\t'] []
        false (AppState.mk (fun _ => none) none 0) =
      (AppState.mk (fun _ => none) none 0, RegisterOutcome.alertEnterName) :=
  C9_name_trimmed_before_checks.1 Nat (fun _ => none) [' ', '\t'] [] false
    (AppState.mk (fun _ => none) none 0) (by decide)

/-- Claim C10: every persistence operation touches only the single key
`facelab_db_v1`: the writers (save, clear, import, registration) leave every
other key unchanged, and the readers (load, export) depend only on that
key's value. -/
theorem C10_only_single_key_touched :
    (∀ k : List Char, k ≠ LS_DB_KEY →
      (∀ (db : IdentityStore) (σ : WebStorage), saveDB db σ k = σ k) ∧
      (∀ (confirmed : Bool) (s : AppState),
        (clearDBHandler confirmed s).localStorage k = s.localStorage k) ∧
      (∀ (text : List Char) (s : AppState),
        (importHandler text s).1.localStorage k = s.localStorage k) ∧
      (∀ (Img : Type) (detect : Img → Option Descriptor) (labelRaw : List Char)
          (files : List Img) (ml : Bool) (s : AppState),
        (registerLabeledFaces detect labelRaw files ml s).1.localStorage k =
          s.localStorage k)) ∧
    (∀ σ σb : WebStorage, getItem LS_DB_KEY σ = getItem LS_DB_KEY σb →
      loadDB σ = loadDB σb ∧ exportDB σ = exportDB σb) := by
  constructor
  · intro k hk
    refine ⟨?_, ?_, ?_, ?_⟩
    · intro db σ
      simp [saveDB, setItem, hk]
    · intro confirmed s
      cases confirmed with
      | false => rfl
      | true =>
        have e : clearDBHandler true s = makeFaceMatcherFromStorage
            { s with localStorage := removeItem LS_DB_KEY s.localStorage } := rfl
        rw [e, makeFaceMatcherFromStorage_localStorage]
        simp [removeItem, hk]
    · intro text s
      cases hp : parseJsonTop text with
      | none => simp [importHandler, hp]
      | some parsed =>
        simp [importHandler, hp, makeFaceMatcherFromStorage_localStorage, setItem, hk]
    · intro Img detect labelRaw files ml s
      by_cases h1 : trim labelRaw = []
      · simp [registerLabeledFaces, h1]
      by_cases h2 : files.length = 0
      · simp [registerLabeledFaces, h1, h2]
      by_cases h3 : ml = false
      · simp [registerLabeledFaces, h1, h2, h3]
      by_cases h4 : (files.filterMap detect).length = 0
      · simp [registerLabeledFaces, h1, h2, h3, h4]
      cases hdb : jsonToStore (loadDB s.localStorage) with
      | none => simp [registerLabeledFaces, h1, h2, h3, h4, hdb]
      | some db =>
        simp [registerLabeledFaces, h1, h2, h3, h4, hdb,
          makeFaceMatcherFromStorage_localStorage, saveDB, setItem, hk]
  · intro σ σb hgt
    have hload : loadDB σ = loadDB σb := by
      unfold loadDB
      rw [hgt]
    exact ⟨hload, by unfold exportDB; rw [hload]⟩

/-- Witness for claim C10: a write leaves a different key untouched and two
storages agreeing on the single key load identically. -/
theorem C10_witness :
    saveDB [] (fun _ => none) ['x'] = none ∧
    loadDB (fun _ => none) = loadDB (fun q => if q = ['y'] then some ['z'] else none) := by
  obtain ⟨hframe, hread⟩ := C10_only_single_key_touched
  exact ⟨(hframe ['x'] (by decide)).1 [] (fun _ => none), (hread _ _ (by rfl)).1⟩
